import Mathlib

/-!
Verification development for the node-layered-config repository.

The definitions below are a shallow embedding of the two components of the
library: the Layer class (src/lib/Layer.js) and the LayeredConfiguration
class (the main module file).  JavaScript values are embedded as the
inductive type Value, with the JavaScript undefined represented as the
none case of Option Value.  Plain objects are embedded as insertion-ordered
association lists with string keys, which matches how the source uses them
(own string properties only, no duplicate keys).  Mutation of the
configuration is embedded as explicit state passing: each operation takes
the configuration and returns the updated one, together with an error when
the source throws; all throws in the source happen before any mutation, so
returning the original state alongside the error is faithful.  Filesystem,
HJSON decoding and process environment access are external collaborators of
the core; they are passed in as explicit arguments (a directory listing, a
decode function, a parsed environment mapping).
-/

/-- Value is the embedding of a JavaScript runtime value as stored inside a
configuration layer.  The JavaScript undefined is not a Value; it is
represented by none at type Option Value. -/
inductive Value where
  | vNull
  | vBool (b : Bool)
  | vNum (n : Int)
  | vStr (s : String)
  | vObj (fields : List (String × Value))
  | vArr (elems : List Value)

/-- isNull recognises the JavaScript null value. -/
def Value.isNull : Value → Bool
  | Value.vNull => true
  | _ => false

/-- isPlainObject is the embedding of the lodash isPlainObject check used by
the source: true exactly for plain objects. -/
def Value.isPlainObject : Value → Bool
  | Value.vObj _ => true
  | _ => false

/-- jsIsString is the embedding of the lodash isString check on a possibly
undefined JavaScript value. -/
def jsIsString : Option Value → Bool
  | some (Value.vStr _) => true
  | _ => false

/-- assocLookup reads an own property of a JavaScript object embedded as an
association list; the first entry with the key wins, matching the fact that
JavaScript objects never hold duplicate keys. -/
def assocLookup {α : Type} : List (String × α) → String → Option α
  | [], _ => none
  | (k, v) :: rest, key => if k = key then some v else assocLookup rest key

/-- assocSet is a JavaScript property assignment: it replaces the value of an
existing key in place, or appends a new key at the end (insertion order). -/
def assocSet {α : Type} : List (String × α) → String → α → List (String × α)
  | [], key, v => [(key, v)]
  | (k, w) :: rest, key, v =>
    if k = key then (k, v) :: rest else (k, w) :: assocSet rest key v

/-- assocDelete is the JavaScript delete operator on an own property. -/
def assocDelete {α : Type} : List (String × α) → String → List (String × α)
  | [], _ => []
  | (k, w) :: rest, key => if k = key then rest else (k, w) :: assocDelete rest key

/-- isWsChar matches the whitespace class trimmed by String.prototype.trim. -/
def isWsChar (c : Char) : Bool := c.isWhitespace

/-- trimChars removes leading and trailing whitespace from a character list. -/
def trimChars (l : List Char) : List Char :=
  ((l.dropWhile isWsChar).reverse.dropWhile isWsChar).reverse

/-- jsTrim is the embedding of String.prototype.trim. -/
def jsTrim (s : String) : String := String.mk (trimChars s.data)

/-- isPrefixList decides whether the first character list is a prefix of the
second one. -/
def isPrefixList : List Char → List Char → Bool
  | [], _ => true
  | _ :: _, [] => false
  | c :: cs, d :: ds => c = d && isPrefixList cs ds

/-- splitFuel scans a character list left to right, cutting it at every
leftmost occurrence of the separator (head sepH, tail sepT), exactly like
String.prototype.split with a non-empty string separator.  The fuel starts
at the length of the list and bounds the recursion; each step consumes at
least one character, so the fuel is never exhausted and the zero case is
unreachable. -/
def splitFuel (sepH : Char) (sepT : List Char) : Nat → List Char → List Char → List (List Char)
  | 0, l, acc => [acc.reverse ++ l]
  | _ + 1, [], acc => [acc.reverse]
  | fuel + 1, c :: cs, acc =>
    if c = sepH && isPrefixList sepT cs then
      acc.reverse :: splitFuel sepH sepT fuel (cs.drop sepT.length) []
    else
      splitFuel sepH sepT fuel cs (c :: acc)

/-- jsSplit is the embedding of String.prototype.split with a string
separator.  An empty separator splits into single characters, as in
JavaScript. -/
def jsSplit (s sep : String) : List String :=
  match sep.data with
  | [] => s.data.map (fun c => String.mk [c])
  | h :: t => (splitFuel h t s.data.length s.data []).map String.mk

/-- normalizeChar replaces the four characters that normalizeLayerName
rewrites inside layer names. -/
def normalizeChar (c : Char) : Char :=
  if c = '.' ∨ c = '/' ∨ c = '\\' ∨ c = ':' then '_' else c

/-- normalizeLayerName embeds LayeredConfiguration.normalizeLayerName: every
occurrence of one of the characters dot, slash, backslash and colon inside a
layer name is replaced with an underscore. -/
def normalizeLayerName (layerName : String) : String :=
  String.mk (layerName.data.map normalizeChar)

/-- splitPath embeds LayeredConfiguration.splitPath: split the path at the
separator, drop every element that is empty after trimming, and trim each
surviving element.  The type error thrown for a non-string argument is
handled at the call sites that receive dynamic arguments. -/
def splitPath (pathSeparator : String) (path : String) : List String :=
  ((jsSplit path pathSeparator).filter (fun item => ¬ jsTrim item = "")).map jsTrim

/-- doGetConfigurationNode embeds Layer.doGetConfigurationNode: walk the
context along the path, skipping elements that are empty after trimming,
failing with undefined as soon as the context is not a plain object owning
the next element. -/
def doGetConfigurationNode : List String → Value → Option Value
  | [], currentContext => some currentContext
  | pathElement :: rest, currentContext =>
    if jsTrim pathElement = "" then
      doGetConfigurationNode rest currentContext
    else
      match currentContext with
      | Value.vObj fields =>
        match assocLookup fields pathElement with
        | none => none
        | some child =>
          if rest.isEmpty then some child else doGetConfigurationNode rest child
      | _ => none

/-- writeTerminalNode is the terminal step of Layer.doSetConfigurationNode:
an undefined value deletes the key, any other value is assigned to it. -/
def writeTerminalNode (key : String) (value : Option Value) (fields : List (String × Value)) :
    List (String × Value) :=
  match value with
  | none => assocDelete fields key
  | some v => assocSet fields key v

/-- hasPlainObjectAt checks that the object owns the key and that the value
there is a plain object, the compound guard of doSetConfigurationNode. -/
def hasPlainObjectAt (fields : List (String × Value)) (key : String) : Bool :=
  match assocLookup fields key with
  | some (Value.vObj _) => true
  | _ => false

/-- childFieldsAt reads the plain object stored at the key; it is only used
after hasPlainObjectAt has been established (the default is unreachable). -/
def childFieldsAt (fields : List (String × Value)) (key : String) : List (String × Value) :=
  match assocLookup fields key with
  | some (Value.vObj g) => g
  | _ => []

/-- doSetConfigurationNode embeds Layer.doSetConfigurationNode.  The context
is always a plain object in the source (the root is the layer data object
and every descent first forces the child to be a plain object), so it is
embedded as a field list.  The branch for a path element that is empty after
trimming mirrors a quirk of the source: the skip-recursion there is not
followed by a return statement, so the code falls through and runs the
terminal or descent step with the illegal element; by that time the shared
path array has been fully consumed by the skip-recursion, so the descent
step receives an empty path array and its recursive call returns the child
context unchanged. -/
def doSetConfigurationNode : List String → Option Value → List (String × Value) →
    List (String × Value)
  | [], _, currentContext => currentContext
  | pathElement :: rest, value, currentContext =>
    if jsTrim pathElement = "" then
      let ctx2 := doSetConfigurationNode rest value currentContext
      if rest.isEmpty then
        writeTerminalNode pathElement value ctx2
      else
        let ctx3 := if hasPlainObjectAt ctx2 pathElement then ctx2
          else assocSet ctx2 pathElement (Value.vObj [])
        assocSet ctx3 pathElement (Value.vObj (childFieldsAt ctx3 pathElement))
    else
      if rest.isEmpty then
        writeTerminalNode pathElement value currentContext
      else
        let ctx3 := if hasPlainObjectAt currentContext pathElement then currentContext
          else assocSet currentContext pathElement (Value.vObj [])
        assocSet ctx3 pathElement
          (Value.vObj (doSetConfigurationNode rest value (childFieldsAt ctx3 pathElement)))

/-- Layer embeds the Layer class.  The data tree is always a plain object in
the source (constructor, clear and setConfigurationNode keep it one), so it
is embedded as the field list of that object. -/
structure Layer where
  name : String
  writeToDisk : Bool
  data : List (String × Value)

/-- Layer.make embeds the Layer constructor: the configuration data is deep
copied (a no-op on immutable values) and defaults to an empty object. -/
def Layer.make (name : String) (configData : Option (List (String × Value)))
    (writeToDisk : Bool) : Layer :=
  { name := name, writeToDisk := writeToDisk, data := configData.getD [] }

/-- Layer.clear embeds Layer.clear: the data is reset to an empty object. -/
def Layer.clear (layer : Layer) : Layer := { layer with data := [] }

/-- Layer.getConfigurationNode embeds Layer.getConfigurationNode; the source
hands a fresh copy of the path array to the traversal, which the pure
embedding gets for free. -/
def Layer.getConfigurationNode (layer : Layer) (pathArray : List String) : Option Value :=
  doGetConfigurationNode pathArray (Value.vObj layer.data)

/-- Layer.setConfigurationNode embeds Layer.setConfigurationNode; the
in-place mutation of the data object becomes a functional update. -/
def Layer.setConfigurationNode (layer : Layer) (pathArray : List String)
    (value : Option Value) : Layer :=
  { layer with data := doSetConfigurationNode pathArray value layer.data }

/-- LayeredConfiguration embeds the LayeredConfiguration class: the layers
object (an insertion-ordered mapping from normalized name to layer), the
layerNames priority order, and the mutable path separator. -/
structure LayeredConfiguration where
  layers : List (String × Layer)
  layerNames : List String
  pathSeparator : String

/-- newConfiguration embeds the LayeredConfiguration constructor. -/
def newConfiguration : LayeredConfiguration :=
  { layers := [], layerNames := [], pathSeparator := "." }

/-- LayeredConfiguration.getLayer embeds getLayer: normalize the name and
read the layers object, returning undefined when the layer is missing. -/
def LayeredConfiguration.getLayer (cfg : LayeredConfiguration) (layerName : String) :
    Option Layer :=
  assocLookup cfg.layers (normalizeLayerName layerName)

/-- RestrictArg is the type of the restrictToLayer parameter of get and has:
undefined, a single string, or an array of strings.  Any other shape throws
a type error in the source and is excluded by this type. -/
inductive RestrictArg where
  | undef
  | str (s : String)
  | list (names : List String)

/-- candidateLayerNames embeds the candidate selection of get: a truthy
restrictToLayer is cast to an array and used as given; the empty string is
falsy in JavaScript, so it falls back to the layerNames order, while an
array is always truthy, even when empty. -/
def candidateLayerNames (cfg : LayeredConfiguration) : RestrictArg → List String
  | RestrictArg.undef => cfg.layerNames
  | RestrictArg.str s => if s = "" then cfg.layerNames else [s]
  | RestrictArg.list names => names

/-- searchLayers embeds the forEach loop of get: normalize each candidate
name, skip missing layers, and stop at the first value that is defined and,
when ignoreNulls is set, not null. -/
def searchLayers (cfg : LayeredConfiguration) (pathArray : List String) (ignoreNulls : Bool) :
    List String → Option Value
  | [] => none
  | layerName :: rest =>
    match cfg.getLayer (normalizeLayerName layerName) with
    | none => searchLayers cfg pathArray ignoreNulls rest
    | some layer =>
      match layer.getConfigurationNode pathArray with
      | none => searchLayers cfg pathArray ignoreNulls rest
      | some res =>
        if ignoreNulls && res.isNull then searchLayers cfg pathArray ignoreNulls rest
        else some res

/-- LayeredConfiguration.get embeds get with a string path (a non-string
path throws a type error inside splitPath; the dynamic check on
restrictToLayer is discharged by the RestrictArg type). -/
def LayeredConfiguration.get (cfg : LayeredConfiguration) (path : String)
    (ignoreNulls : Bool) (restrictToLayer : RestrictArg) : Option Value :=
  searchLayers cfg (splitPath cfg.pathSeparator path) ignoreNulls
    (candidateLayerNames cfg restrictToLayer)

/-- LayeredConfiguration.has embeds has: defined as get being defined. -/
def LayeredConfiguration.has (cfg : LayeredConfiguration) (path : String)
    (ignoreNulls : Bool) (restrictToLayer : RestrictArg) : Bool :=
  (cfg.get path ignoreNulls restrictToLayer).isSome

/-- ConfigError separates the two kinds of synchronous throw in the source:
TypeError and plain Error. -/
inductive ConfigError where
  | typeError (msg : String)
  | jsError (msg : String)

/-- spliceInsert embeds Array.prototype.splice(index, 0, x): a negative
index counts from the end and clamps at zero, an index beyond the length
clamps to an append at the end. -/
def spliceInsert (l : List String) (index : Int) (x : String) : List String :=
  let len : Int := l.length
  let i : Int := if index < 0 then max (len + index) 0 else min index len
  l.take i.toNat ++ x :: l.drop i.toNat

/-- indexOfInt embeds Array.prototype.indexOf, which returns -1 when the
element is absent. -/
def indexOfInt (l : List String) (x : String) : Int :=
  if x ∈ l then (l.indexOf x : Int) else (-1)

/-- LayeredConfiguration.removeSingleLayer embeds removeSingleLayer: the
normalized name is spliced out of layerNames when present and deleted from
the layers object when it is an own key. -/
def LayeredConfiguration.removeSingleLayer (cfg : LayeredConfiguration)
    (layerName : String) : LayeredConfiguration :=
  let n := normalizeLayerName layerName
  { cfg with layerNames := cfg.layerNames.erase n, layers := assocDelete cfg.layers n }

/-- LayeredConfiguration.removeLayer embeds removeLayer: the argument is
cast to an array and each name is removed in turn. -/
def LayeredConfiguration.removeLayer (cfg : LayeredConfiguration)
    (layerNames : List String) : LayeredConfiguration :=
  layerNames.foldl (fun c ln => c.removeSingleLayer ln) cfg

/-- LayeredConfiguration.addLayerAt embeds addLayerAt with typed arguments
(the dynamic checks on name, data and index are discharged by the types):
normalize the name, remove a pre-existing layer of that name, store a fresh
layer in the layers object and splice its name into layerNames. -/
def LayeredConfiguration.addLayerAt (cfg : LayeredConfiguration) (layerName : String)
    (configurationData : Option (List (String × Value))) (layerIndex : Int) :
    LayeredConfiguration × Layer :=
  let n := normalizeLayerName layerName
  let cfg1 := cfg.removeLayer [n]
  let layer := Layer.make n configurationData false
  ({ cfg1 with layers := assocSet cfg1.layers n layer,
               layerNames := spliceInsert cfg1.layerNames layerIndex n }, layer)

/-- LayeredConfiguration.addLayer embeds addLayer: addLayerAt at index 0. -/
def LayeredConfiguration.addLayer (cfg : LayeredConfiguration) (layerName : String)
    (configurationData : Option (List (String × Value))) : LayeredConfiguration × Layer :=
  cfg.addLayerAt layerName configurationData 0

/-- LayeredConfiguration.addLayerRelativeTo embeds addLayerRelativeTo.  The
other layer name is looked up in layerNames exactly as given, without
normalization; absence maps to index 0 for before and to the end of the
list for after. -/
def LayeredConfiguration.addLayerRelativeTo (cfg : LayeredConfiguration) (layerName : String)
    (configurationData : Option (List (String × Value))) (otherLayerName : String)
    (before : Bool) : LayeredConfiguration × Layer :=
  let idx0 : Int := indexOfInt cfg.layerNames otherLayerName
  let idx1 : Int := if idx0 = -1 then (if before then 0 else (cfg.layerNames.length : Int))
    else idx0
  let idx2 : Int := if before then idx1 else idx1 + 1
  cfg.addLayerAt layerName configurationData idx2

/-- LayeredConfiguration.addLayerBefore embeds addLayerBefore. -/
def LayeredConfiguration.addLayerBefore (cfg : LayeredConfiguration) (layerName : String)
    (configurationData : Option (List (String × Value))) (otherLayerName : String) :
    LayeredConfiguration × Layer :=
  cfg.addLayerRelativeTo layerName configurationData otherLayerName true

/-- LayeredConfiguration.addLayerAfter embeds addLayerAfter. -/
def LayeredConfiguration.addLayerAfter (cfg : LayeredConfiguration) (layerName : String)
    (configurationData : Option (List (String × Value))) (otherLayerName : String) :
    LayeredConfiguration × Layer :=
  cfg.addLayerRelativeTo layerName configurationData otherLayerName false

/-- LayeredConfiguration.removeAllLayers embeds removeAllLayers. -/
def LayeredConfiguration.removeAllLayers (cfg : LayeredConfiguration) : LayeredConfiguration :=
  { cfg with layers := [], layerNames := [] }

/-- LayeredConfiguration.clearLayer embeds clearLayer: cast to an array,
clear each existing layer in place, skip missing names silently. -/
def LayeredConfiguration.clearLayer (cfg : LayeredConfiguration) (layerNames : List String) :
    LayeredConfiguration :=
  layerNames.foldl (fun c ln =>
    match c.getLayer ln with
    | some layer => { c with layers := assocSet c.layers (normalizeLayerName ln) layer.clear }
    | none => c) cfg

/-- LayeredConfiguration.clearAllLayers embeds clearAllLayers. -/
def LayeredConfiguration.clearAllLayers (cfg : LayeredConfiguration) : LayeredConfiguration :=
  { cfg with layers := cfg.layers.map (fun e => (e.1, e.2.clear)) }

/-- LayeredConfiguration.getLayerNames embeds getLayerNames; the defensive
copy is a no-op on immutable lists. -/
def LayeredConfiguration.getLayerNames (cfg : LayeredConfiguration) : List String :=
  cfg.layerNames

/-- LayeredConfiguration.setInLayer is the tail of set after the target
layer name has been resolved: normalize it, fetch or implicitly create the
layer, and write the value through setConfigurationNode.  The in-place
mutation of the stored layer object becomes a functional update of its
entry in the layers object. -/
def LayeredConfiguration.setInLayer (cfg : LayeredConfiguration) (layerName : String)
    (pathArray : List String) (value : Option Value) : LayeredConfiguration :=
  match cfg.getLayer (normalizeLayerName layerName) with
  | some layer =>
    LayeredConfiguration.mk
      (assocSet cfg.layers (normalizeLayerName layerName)
        (layer.setConfigurationNode pathArray value))
      cfg.layerNames cfg.pathSeparator
  | none =>
    LayeredConfiguration.mk
      (assocSet (cfg.addLayer (normalizeLayerName layerName) none).1.layers
        (normalizeLayerName layerName)
        ((cfg.addLayer (normalizeLayerName layerName) none).2.setConfigurationNode
          pathArray value))
      ((cfg.addLayer (normalizeLayerName layerName) none).1.layerNames)
      ((cfg.addLayer (normalizeLayerName layerName) none).1.pathSeparator)

/-- LayeredConfiguration.set embeds set with dynamic path and layerName
arguments, so that the type errors of the source are expressible.  The
source throws before any mutation, so an error is returned alongside the
unchanged configuration. -/
def LayeredConfiguration.set (cfg : LayeredConfiguration) (path value layerName : Option Value) :
    LayeredConfiguration × Option ConfigError :=
  if layerName.isSome && !jsIsString layerName then
    (cfg, some (ConfigError.typeError "layerName needs to be a string"))
  else
    match path with
    | some (Value.vStr p) =>
      let pathArray := splitPath cfg.pathSeparator p
      if pathArray.isEmpty then
        (cfg, some (ConfigError.jsError "Illegal configuration path"))
      else
        match layerName with
        | some (Value.vStr s) =>
          if jsTrim s = "" then
            if cfg.layerNames.isEmpty then (cfg, some (ConfigError.jsError "No layers present"))
            else (cfg.setInLayer (cfg.layerNames.headD "") pathArray value, none)
          else (cfg.setInLayer s pathArray value, none)
        | _ =>
          if cfg.layerNames.isEmpty then (cfg, some (ConfigError.jsError "No layers present"))
          else (cfg.setInLayer (cfg.layerNames.headD "") pathArray value, none)
    | _ => (cfg, some (ConfigError.typeError "path needs to be a String"))

/-- LayeredConfiguration.loadFromEnv embeds loadFromEnv.  The environment
mapping produced by getEnvData from process.env and the filter options is
an external input of the core, so the already converted data object is
passed in directly. -/
def LayeredConfiguration.loadFromEnv (cfg : LayeredConfiguration)
    (envData : List (String × Value)) (layerName : Option String) : LayeredConfiguration :=
  let n := match layerName with
    | some s => if jsTrim s = "" then "process_env" else s
    | none => "process_env"
  (cfg.addLayer n (some envData)).1

/-- joinPath embeds path.join for the one shape the source uses. -/
def joinPath (directoryPath file : String) : String := directoryPath ++ "/" ++ file

/-- baseName embeds path.basename without a suffix argument. -/
def baseName (p : String) : String := (jsSplit p "/").getLastD p

/-- extName embeds path.extname on the file names the source handles: the
final dot-suffix of the base name, empty when there is no dot or when the
only dot is the leading character. -/
def extName (p : String) : String :=
  let parts := jsSplit (baseName p) "."
  match parts with
  | [] => ""
  | [_] => ""
  | "" :: [_] => ""
  | _ => "." ++ parts.getLastD ""

/-- baseNameNoExt embeds path.basename(p, path.extname(p)), the automatic
layer name of a loaded file; the extension is always a suffix of the base
name by construction. -/
def baseNameNoExt (p : String) : String :=
  let b := baseName p
  let e := extName p
  if e = "" then b else String.mk (b.data.take (b.data.length - e.data.length))

/-- toLowerStr lowercases a string character by character, as the source
does with toLowerCase on file extensions. -/
def toLowerStr (s : String) : String := String.mk (s.data.map Char.toLower)

/-- insertSorted inserts a string into an already sorted list. -/
def insertSorted (x : String) : List String → List String
  | [] => [x]
  | y :: ys => if x ≤ y then x :: y :: ys else y :: insertSorted x ys

/-- sortStrings embeds Array.prototype.sort() on file name lists. -/
def sortStrings (l : List String) : List String := l.foldr insertSorted []

/-- LayeredConfiguration.loadFromFile embeds loadFromFile.  The decode
collaborator stands for the chain of access check, file read and HJSON
parse: it either fails (the promise rejects) or yields the parsed value.  A
parse result that is not a plain object also rejects; otherwise a layer is
added under the given name, defaulting to the file base name without its
extension. -/
def LayeredConfiguration.loadFromFile (cfg : LayeredConfiguration)
    (decode : String → Except Unit (Option Value)) (filePath : String)
    (layerName : Option String) : LayeredConfiguration × Option Unit :=
  match decode filePath with
  | Except.error _ => (cfg, some ())
  | Except.ok jsonData =>
    let n := match layerName with
      | some s => if jsTrim s = "" then baseNameNoExt filePath else s
      | none => baseNameNoExt filePath
    match jsonData with
    | some (Value.vObj fields) => ((cfg.addLayer n (some fields)).1, none)
    | _ => (cfg, some ())

/-- loadFilesSeq embeds the async.series chain of loadFromDirectory: the
files are loaded one after the other and the first failure stops the
chain. -/
def loadFilesSeq (decode : String → Except Unit (Option Value)) (directoryPath : String) :
    List String → LayeredConfiguration → LayeredConfiguration × Option Unit
  | [], cfg => (cfg, none)
  | file :: rest, cfg =>
    match cfg.loadFromFile decode (joinPath directoryPath file) none with
    | (cfg2, none) => loadFilesSeq decode directoryPath rest cfg2
    | (cfg2, some e) => (cfg2, some e)

/-- LayeredConfiguration.loadFromDirectory embeds loadFromDirectory.  The
directory listing collaborator either fails or yields the file names; the
recognised extensions are filtered case-insensitively, the files are sorted
and loaded sequentially, and on any failure the layers object and the layer
order are restored from the snapshot taken on entry before the failure is
reported. -/
def LayeredConfiguration.loadFromDirectory (cfg : LayeredConfiguration)
    (decode : String → Except Unit (Option Value)) (directoryPath : String)
    (listing : Except Unit (List String)) : LayeredConfiguration × Option Unit :=
  let oldLayerNames := cfg.layerNames
  let oldLayers := cfg.layers
  match listing with
  | Except.error _ => (cfg, some ())
  | Except.ok files =>
    let selected := (sortStrings files).filter (fun file =>
      let ext := toLowerStr (extName file)
      ext = ".hjson" ∨ ext = ".json")
    match loadFilesSeq decode directoryPath selected cfg with
    | (cfg2, none) => (cfg2, none)
    | (cfg2, some e) =>
      ({ cfg2 with layers := oldLayers, layerNames := oldLayerNames }, some e)

/-- ConfigOp enumerates the public state-changing operations of the
configuration, with external collaborator inputs carried as data. -/
inductive ConfigOp where
  | opAddLayer (name : String) (data : Option (List (String × Value)))
  | opAddLayerAt (name : String) (data : Option (List (String × Value))) (index : Int)
  | opAddLayerBefore (name : String) (data : Option (List (String × Value))) (other : String)
  | opAddLayerAfter (name : String) (data : Option (List (String × Value))) (other : String)
  | opRemoveLayer (names : List String)
  | opRemoveAllLayers
  | opClearLayer (names : List String)
  | opClearAllLayers
  | opSet (path : Option Value) (value : Option Value) (layerName : Option Value)
  | opLoadFromEnv (envData : List (String × Value)) (layerName : Option String)
  | opLoadFromDirectory (decode : String → Except Unit (Option Value))
      (directoryPath : String) (listing : Except Unit (List String))

/-- applyConfigOp runs one public operation on the configuration state;
operations that throw leave the state unchanged, which the embedding
reflects by returning the original state alongside the error. -/
def applyConfigOp (cfg : LayeredConfiguration) : ConfigOp → LayeredConfiguration
  | ConfigOp.opAddLayer n d => (cfg.addLayer n d).1
  | ConfigOp.opAddLayerAt n d i => (cfg.addLayerAt n d i).1
  | ConfigOp.opAddLayerBefore n d o => (cfg.addLayerBefore n d o).1
  | ConfigOp.opAddLayerAfter n d o => (cfg.addLayerAfter n d o).1
  | ConfigOp.opRemoveLayer ns => cfg.removeLayer ns
  | ConfigOp.opRemoveAllLayers => cfg.removeAllLayers
  | ConfigOp.opClearLayer ns => cfg.clearLayer ns
  | ConfigOp.opClearAllLayers => cfg.clearAllLayers
  | ConfigOp.opSet p v ln => (cfg.set p v ln).1
  | ConfigOp.opLoadFromEnv env ln => cfg.loadFromEnv env ln
  | ConfigOp.opLoadFromDirectory dec dir listing => (cfg.loadFromDirectory dec dir listing).1

/-!
Helper lemmas about trimming, layer-name normalization, path splitting and
the association-list operations.
-/

/-- frontClean states that a character list does not start with whitespace. -/
def frontClean (l : List Char) : Prop :=
  ∀ a t, l = a :: t → isWsChar a = false

theorem dropWhile_self_idem {α : Type} (p : α → Bool) (l : List α) :
    (l.dropWhile p).dropWhile p = l.dropWhile p := by
  induction l with
  | nil => simp
  | cons a t ih =>
    by_cases h : p a = true
    · simpa [List.dropWhile, h] using ih
    · simp [List.dropWhile, h]

theorem frontClean_dropWhile (l : List Char) : frontClean (l.dropWhile isWsChar) := by
  induction l with
  | nil => intro a t h; simp at h
  | cons b t ih =>
    by_cases h : isWsChar b = true
    · simpa [List.dropWhile, h] using ih
    · intro a t2 h2
      simp [List.dropWhile, h] at h2
      rcases h2 with ⟨rfl, _⟩
      simpa using h

theorem frontClean_of_isPrefix {l m : List Char} (hp : m <+: l) (hc : frontClean l) :
    frontClean m := by
  rcases hp with ⟨r, rfl⟩
  intro a t h
  exact hc a (t ++ r) (by simp [h])

theorem frontClean_dropWhile_eq {l : List Char} (hc : frontClean l) :
    l.dropWhile isWsChar = l := by
  cases l with
  | nil => simp
  | cons a t => simp [List.dropWhile, hc a t rfl]

theorem trimChars_idem (l : List Char) : trimChars (trimChars l) = trimChars l := by
  have hp2 : trimChars l <+: l.dropWhile isWsChar := by
    have hs : (l.dropWhile isWsChar).reverse.dropWhile isWsChar <:+
        (l.dropWhile isWsChar).reverse := List.dropWhile_suffix _
    have hp3 := List.reverse_prefix.mpr hs
    rw [List.reverse_reverse] at hp3
    exact hp3
  have hfc : frontClean (trimChars l) := frontClean_of_isPrefix hp2 (frontClean_dropWhile l)
  have h1 : (trimChars l).dropWhile isWsChar = trimChars l := frontClean_dropWhile_eq hfc
  rw [show trimChars (trimChars l) =
      (((trimChars l).dropWhile isWsChar).reverse.dropWhile isWsChar).reverse from rfl, h1]
  rw [show trimChars l = ((l.dropWhile isWsChar).reverse.dropWhile isWsChar).reverse from rfl]
  rw [List.reverse_reverse, dropWhile_self_idem]

theorem jsTrim_idem (s : String) : jsTrim (jsTrim s) = jsTrim s := by
  unfold jsTrim
  simpa using congrArg String.mk (trimChars_idem s.data)

theorem normalizeChar_idem (c : Char) : normalizeChar (normalizeChar c) = normalizeChar c := by
  unfold normalizeChar
  by_cases h : c = '.' ∨ c = '/' ∨ c = '\\' ∨ c = ':'
  · simp [h]
  · simp [h]

theorem normalizeLayerName_idem (s : String) :
    normalizeLayerName (normalizeLayerName s) = normalizeLayerName s := by
  unfold normalizeLayerName
  simp only [List.map_map]
  refine congrArg String.mk (List.map_congr_left ?_)
  intro c _
  exact normalizeChar_idem c

theorem mem_splitPath_clean {sep p e : String} (h : e ∈ splitPath sep p) :
    jsTrim e = e ∧ ¬ e = "" := by
  unfold splitPath at h
  rcases List.mem_map.mp h with ⟨x, hx, rfl⟩
  rcases List.mem_filter.mp hx with ⟨_, hne⟩
  have hne2 : ¬ jsTrim x = "" := by simpa using hne
  exact ⟨jsTrim_idem x, hne2⟩

theorem assocLookup_assocSet_self {α : Type} (l : List (String × α)) (k : String) (v : α) :
    assocLookup (assocSet l k v) k = some v := by
  induction l with
  | nil => simp [assocSet, assocLookup]
  | cons e rest ih =>
    by_cases h : e.1 = k
    · simp [assocSet, assocLookup, h]
    · simp [assocSet, assocLookup, h, ih]

/-- assocKeys lists the own keys of an embedded JavaScript object. -/
def assocKeys {α : Type} (l : List (String × α)) : List String := l.map Prod.fst

theorem assocKeys_cons {α : Type} (e : String × α) (rest : List (String × α)) :
    assocKeys (e :: rest) = e.1 :: assocKeys rest := rfl

theorem assocKeys_assocDelete {α : Type} (l : List (String × α)) (k : String) :
    assocKeys (assocDelete l k) = (assocKeys l).erase k := by
  induction l with
  | nil => rfl
  | cons e rest ih =>
    by_cases h : e.1 = k
    · rw [show assocDelete (e :: rest) k = rest from by simp [assocDelete, h], assocKeys_cons,
        List.erase_cons, if_pos (by simpa using h)]
    · rw [show assocDelete (e :: rest) k = e :: assocDelete rest k from by simp [assocDelete, h],
        assocKeys_cons, assocKeys_cons, List.erase_cons, if_neg (by simpa using h), ih]

theorem assocKeys_assocSet_mem {α : Type} {l : List (String × α)} {k : String} (v : α)
    (h : k ∈ assocKeys l) : assocKeys (assocSet l k v) = assocKeys l := by
  induction l with
  | nil => simp [assocKeys] at h
  | cons e rest ih =>
    by_cases he : e.1 = k
    · rw [show assocSet (e :: rest) k v = (e.1, v) :: rest from by simp [assocSet, he],
        assocKeys_cons, assocKeys_cons]
    · have h2 : k ∈ assocKeys rest := by
        rw [assocKeys_cons] at h
        rcases List.mem_cons.mp h with h3 | h3
        · exact absurd h3.symm he
        · exact h3
      rw [show assocSet (e :: rest) k v = e :: assocSet rest k v from by simp [assocSet, he],
        assocKeys_cons, assocKeys_cons, ih h2]

theorem assocKeys_assocSet_notMem {α : Type} {l : List (String × α)} {k : String} (v : α)
    (h : ¬ k ∈ assocKeys l) : assocKeys (assocSet l k v) = assocKeys l ++ [k] := by
  induction l with
  | nil => rfl
  | cons e rest ih =>
    have he : ¬ e.1 = k := by
      intro h2
      exact h (by rw [assocKeys_cons, h2]; exact List.mem_cons_self _ _)
    have h2 : ¬ k ∈ assocKeys rest := by
      intro h3
      exact h (by rw [assocKeys_cons]; exact List.mem_cons_of_mem _ h3)
    rw [show assocSet (e :: rest) k v = e :: assocSet rest k v from by simp [assocSet, he],
      assocKeys_cons, ih h2, assocKeys_cons, List.cons_append]

theorem assocLookup_eq_none_iff {α : Type} (l : List (String × α)) (k : String) :
    assocLookup l k = none ↔ ¬ k ∈ assocKeys l := by
  induction l with
  | nil => simp [assocLookup, assocKeys]
  | cons e rest ih =>
    by_cases h : e.1 = k
    · rw [assocKeys_cons]
      simp [assocLookup, h]
    · rw [assocKeys_cons]
      simp only [assocLookup, h, if_false, ih, List.mem_cons]
      constructor
      · intro hn hc
        rcases hc with hc | hc
        · exact h hc.symm
        · exact hn hc
      · intro hn hc
        exact hn (Or.inr hc)

theorem mem_spliceInsert (l : List String) (i : Int) (x a : String) :
    a ∈ spliceInsert l i x ↔ a = x ∨ a ∈ l := by
  unfold spliceInsert
  constructor
  · intro h
    rcases List.mem_append.mp h with h2 | h2
    · exact Or.inr (List.mem_of_mem_take h2)
    · rcases List.mem_cons.mp h2 with h3 | h3
      · exact Or.inl h3
      · exact Or.inr (List.mem_of_mem_drop h3)
  · intro h
    rcases h with rfl | h2
    · exact List.mem_append.mpr (Or.inr (List.mem_cons_self _ _))
    · rw [show l = l.take (if (i : Int) < 0 then
        max ((l.length : Int) + i) 0 else min i (l.length : Int)).toNat ++
        l.drop (if (i : Int) < 0 then max ((l.length : Int) + i) 0 else
        min i (l.length : Int)).toNat from (List.take_append_drop _ l).symm] at h2
      rcases List.mem_append.mp h2 with h3 | h3
      · exact List.mem_append.mpr (Or.inl h3)
      · exact List.mem_append.mpr (Or.inr (List.mem_cons_of_mem _ h3))

theorem nodup_spliceInsert {l : List String} {x : String} (i : Int)
    (hx : ¬ x ∈ l) (hl : l.Nodup) : (spliceInsert l i x).Nodup := by
  unfold spliceInsert
  rw [List.nodup_middle]
  rw [List.take_append_drop]
  exact List.nodup_cons.mpr ⟨hx, hl⟩

theorem spliceInsert_zero (l : List String) (x : String) :
    spliceInsert l 0 x = x :: l := by
  unfold spliceInsert
  have h : ¬ (0 : Int) < 0 := by omega
  have h2 : min (0 : Int) (l.length : Int) = 0 := by omega
  simp [h, h2]

/-!
Characterization of the get search loop.
-/

/-- qualifyingValueAt states what one candidate layer contributes to a get
search, in the words of the specification: the value of its node at the
split path, provided the layer exists and that value is defined and, when
ignoreNulls is set, not null. -/
def qualifyingValueAt (cfg : LayeredConfiguration) (pathArray : List String)
    (ignoreNulls : Bool) (layerName : String) : Option Value :=
  match cfg.getLayer (normalizeLayerName layerName) with
  | none => none
  | some layer =>
    match layer.getConfigurationNode pathArray with
    | none => none
    | some v => if ignoreNulls && v.isNull then none else some v

theorem getLayer_normalize (cfg : LayeredConfiguration) (n : String) :
    cfg.getLayer (normalizeLayerName n) = cfg.getLayer n := by
  unfold LayeredConfiguration.getLayer
  rw [normalizeLayerName_idem]

theorem searchLayers_cons_eq (cfg : LayeredConfiguration) (pa : List String) (ig : Bool)
    (n : String) (rest : List String) :
    searchLayers cfg pa ig (n :: rest) =
      match qualifyingValueAt cfg pa ig n with
      | none => searchLayers cfg pa ig rest
      | some v => some v := by
  cases hL : cfg.getLayer (normalizeLayerName n) with
  | none => simp [searchLayers, qualifyingValueAt, hL]
  | some layer =>
    cases hN : layer.getConfigurationNode pa with
    | none => simp [searchLayers, qualifyingValueAt, hL, hN]
    | some v =>
      by_cases hI : (ig && v.isNull) = true
      · simp [searchLayers, qualifyingValueAt, hL, hN, hI]
      · simp [searchLayers, qualifyingValueAt, hL, hN, hI]

theorem searchLayers_eq_findSome (cfg : LayeredConfiguration) (pa : List String) (ig : Bool)
    (names : List String) :
    searchLayers cfg pa ig names = names.findSome? (qualifyingValueAt cfg pa ig) := by
  induction names with
  | nil => rfl
  | cons n rest ih =>
    rw [searchLayers_cons_eq, List.findSome?_cons]
    cases qualifyingValueAt cfg pa ig n with
    | none => simpa using ih
    | some v => rfl

theorem findSome_eq_some_iff {α β : Type} (f : α → Option β) (l : List α) (v : β) :
    l.findSome? f = some v ↔
      ∃ i, ∃ h : i < l.length, f (l.get ⟨i, h⟩) = some v ∧
        ∀ x ∈ l.take i, f x = none := by
  induction l with
  | nil => simp
  | cons a t ih =>
    rw [List.findSome?_cons]
    cases hfa : f a with
    | some w =>
      constructor
      · intro h
        refine ⟨0, by exact Nat.succ_pos _, ?_, by simp⟩
        have h0 : f a = some v := by rw [hfa]; exact h
        exact h0
      · rintro ⟨i, hi, hget, hpre⟩
        cases i with
        | zero =>
          have h0 : f a = some v := hget
          rw [hfa] at h0
          rw [← h0]
        | succ j =>
          have h0 : f a = none := hpre a (by rw [List.take_succ_cons]; exact List.mem_cons_self _ _)
          rw [hfa] at h0
          cases h0
    | none =>
      rw [ih]
      constructor
      · rintro ⟨j, hj, hget, hpre⟩
        refine ⟨j + 1, Nat.succ_lt_succ hj, hget, ?_⟩
        intro x hx
        rw [List.take_succ_cons] at hx
        rcases List.mem_cons.mp hx with rfl | hx2
        · exact hfa
        · exact hpre x hx2
      · rintro ⟨i, hi, hget, hpre⟩
        cases i with
        | zero =>
          have h0 : f a = some v := hget
          rw [hfa] at h0
          cases h0
        | succ j =>
          refine ⟨j, Nat.lt_of_succ_lt_succ hi, hget, ?_⟩
          intro x hx
          exact hpre x (by rw [List.take_succ_cons]; exact List.mem_cons_of_mem _ hx)

theorem searchLayers_congr_layers (cfg cfg2 : LayeredConfiguration)
    (h : cfg.layers = cfg2.layers) (pa : List String) (ig : Bool) (names : List String) :
    searchLayers cfg pa ig names = searchLayers cfg2 pa ig names := by
  induction names with
  | nil => rfl
  | cons n rest ih =>
    have hgl : cfg.getLayer (normalizeLayerName n) = cfg2.getLayer (normalizeLayerName n) := by
      unfold LayeredConfiguration.getLayer
      rw [h]
    cases hL : cfg2.getLayer (normalizeLayerName n) with
    | none => simp [searchLayers, hgl, hL, ih]
    | some layer =>
      cases hN : layer.getConfigurationNode pa with
      | none => simp [searchLayers, hgl, hL, hN, ih]
      | some v =>
        by_cases hI : (ig && v.isNull) = true
        · simp [searchLayers, hgl, hL, hN, hI, ih]
        · simp [searchLayers, hgl, hL, hN, hI]

/-- C1: get consults the candidate layers in order and returns the value of
the first layer whose node at the split path is defined and qualifying
(defined, and not null when ignoreNulls is set), never consulting later
layers, and returns undefined exactly when no candidate layer yields a
qualifying value. -/
theorem get_returns_first_qualifying_layer_value (cfg : LayeredConfiguration) (path : String)
    (ignoreNulls : Bool) (restrictToLayer : RestrictArg) :
    (cfg.get path ignoreNulls restrictToLayer = none ↔
      ∀ n ∈ candidateLayerNames cfg restrictToLayer,
        qualifyingValueAt cfg (splitPath cfg.pathSeparator path) ignoreNulls n = none) ∧
    (∀ v, cfg.get path ignoreNulls restrictToLayer = some v ↔
      ∃ i, ∃ h : i < (candidateLayerNames cfg restrictToLayer).length,
        qualifyingValueAt cfg (splitPath cfg.pathSeparator path) ignoreNulls
          ((candidateLayerNames cfg restrictToLayer).get ⟨i, h⟩) = some v ∧
        ∀ n ∈ (candidateLayerNames cfg restrictToLayer).take i,
          qualifyingValueAt cfg (splitPath cfg.pathSeparator path) ignoreNulls n = none) := by
  constructor
  · rw [show cfg.get path ignoreNulls restrictToLayer =
        searchLayers cfg (splitPath cfg.pathSeparator path) ignoreNulls
          (candidateLayerNames cfg restrictToLayer) from rfl,
      searchLayers_eq_findSome]
    exact List.findSome?_eq_none_iff
  · intro v
    rw [show cfg.get path ignoreNulls restrictToLayer =
        searchLayers cfg (splitPath cfg.pathSeparator path) ignoreNulls
          (candidateLayerNames cfg restrictToLayer) from rfl,
      searchLayers_eq_findSome]
    exact findSome_eq_some_iff _ _ v

/-- C10: passing the empty string as restrictToLayer behaves exactly like
omitting it, because the empty string is falsy and the candidate selection
falls back to the layer order of the configuration. -/
theorem get_empty_string_restriction_unrestricted (cfg : LayeredConfiguration) (path : String)
    (ignoreNulls : Bool) :
    cfg.get path ignoreNulls (RestrictArg.str "") = cfg.get path ignoreNulls RestrictArg.undef := by
  rfl

/-- C4: with a restriction argument, get searches exactly the named layers
in the order supplied by the caller, ignoring the configuration layer order,
and names that denote no existing layer are skipped silently. -/
theorem get_restricted_search_order_and_skip (cfg : LayeredConfiguration) (path : String)
    (ignoreNulls : Bool) :
    (∀ names, cfg.get path ignoreNulls (RestrictArg.list names) =
      names.findSome? (qualifyingValueAt cfg (splitPath cfg.pathSeparator path) ignoreNulls)) ∧
    (∀ s, ¬ s = "" → cfg.get path ignoreNulls (RestrictArg.str s) =
      [s].findSome? (qualifyingValueAt cfg (splitPath cfg.pathSeparator path) ignoreNulls)) ∧
    (∀ names otherOrder,
      LayeredConfiguration.get
        { layers := cfg.layers, layerNames := otherOrder, pathSeparator := cfg.pathSeparator }
        path ignoreNulls (RestrictArg.list names) =
      cfg.get path ignoreNulls (RestrictArg.list names)) ∧
    (∀ pre post n, cfg.getLayer n = none →
      cfg.get path ignoreNulls (RestrictArg.list (pre ++ n :: post)) =
      cfg.get path ignoreNulls (RestrictArg.list (pre ++ post))) := by
  have hbase : ∀ names, cfg.get path ignoreNulls (RestrictArg.list names) =
      names.findSome? (qualifyingValueAt cfg (splitPath cfg.pathSeparator path) ignoreNulls) := by
    intro names
    exact searchLayers_eq_findSome cfg _ ignoreNulls names
  refine ⟨hbase, ?_, ?_, ?_⟩
  · intro s hs
    rw [show cfg.get path ignoreNulls (RestrictArg.str s) =
      searchLayers cfg (splitPath cfg.pathSeparator path) ignoreNulls
        (candidateLayerNames cfg (RestrictArg.str s)) from rfl]
    rw [show candidateLayerNames cfg (RestrictArg.str s) = [s] from by
      simp [candidateLayerNames, hs]]
    exact searchLayers_eq_findSome cfg _ ignoreNulls [s]
  · intro names otherOrder
    show searchLayers
      { layers := cfg.layers, layerNames := otherOrder, pathSeparator := cfg.pathSeparator }
      (splitPath cfg.pathSeparator path) ignoreNulls names =
      searchLayers cfg (splitPath cfg.pathSeparator path) ignoreNulls names
    exact searchLayers_congr_layers
      { layers := cfg.layers, layerNames := otherOrder, pathSeparator := cfg.pathSeparator }
      cfg rfl (splitPath cfg.pathSeparator path) ignoreNulls names
  · intro pre post n hn
    have hq : qualifyingValueAt cfg (splitPath cfg.pathSeparator path) ignoreNulls n = none := by
      unfold qualifyingValueAt
      rw [getLayer_normalize, hn]
    rw [hbase, hbase, List.findSome?_append, List.findSome?_append, List.findSome?_cons, hq]

/-!
Write-then-read roundtrip inside one layer.
-/

theorem doGet_cons_obj (x : String) (rest : List String) (hx : ¬ jsTrim x = "")
    (fields : List (String × Value)) :
    doGetConfigurationNode (x :: rest) (Value.vObj fields) =
      match assocLookup fields x with
      | none => none
      | some child => if rest.isEmpty then some child else doGetConfigurationNode rest child := by
  simp [doGetConfigurationNode, hx]

theorem doGet_after_doSet : ∀ (pathArr : List String), pathArr ≠ [] →
    (∀ s ∈ pathArr, ¬ jsTrim s = "") → ∀ (fields : List (String × Value)) (v : Value),
    doGetConfigurationNode pathArr
      (Value.vObj (doSetConfigurationNode pathArr (some v) fields)) = some v := by
  intro pathArr
  induction pathArr with
  | nil => intro h; cases h rfl
  | cons x rest ih =>
    intro _ hclean fields v
    have hx : ¬ jsTrim x = "" := hclean x (List.mem_cons_self _ _)
    cases rest with
    | nil =>
      rw [show doSetConfigurationNode [x] (some v) fields = assocSet fields x v from by
        simp [doSetConfigurationNode, hx, writeTerminalNode]]
      rw [doGet_cons_obj x [] hx, assocLookup_assocSet_self]
      rfl
    | cons y rest2 =>
      have hys : ∀ s ∈ y :: rest2, ¬ jsTrim s = "" :=
        fun s hs => hclean s (List.mem_cons_of_mem _ hs)
      rw [show doSetConfigurationNode (x :: y :: rest2) (some v) fields =
        assocSet (if hasPlainObjectAt fields x then fields
            else assocSet fields x (Value.vObj [])) x
          (Value.vObj (doSetConfigurationNode (y :: rest2) (some v)
            (childFieldsAt (if hasPlainObjectAt fields x then fields
              else assocSet fields x (Value.vObj [])) x))) from by
        simp [doSetConfigurationNode, hx]]
      rw [doGet_cons_obj x (y :: rest2) hx, assocLookup_assocSet_self]
      exact ih (by simp) hys _ v

theorem removeLayer_pathSeparator : ∀ (names : List String) (cfg : LayeredConfiguration),
    (cfg.removeLayer names).pathSeparator = cfg.pathSeparator := by
  intro names
  induction names with
  | nil => intro cfg; rfl
  | cons n rest ih =>
    intro cfg
    show ((cfg.removeSingleLayer n).removeLayer rest).pathSeparator = cfg.pathSeparator
    rw [ih]
    rfl

theorem addLayerAt_pathSeparator (cfg : LayeredConfiguration) (n : String)
    (d : Option (List (String × Value))) (i : Int) :
    ((cfg.addLayerAt n d i).1).pathSeparator = cfg.pathSeparator := by
  unfold LayeredConfiguration.addLayerAt
  exact removeLayer_pathSeparator [normalizeLayerName n] cfg

theorem setInLayer_pathSeparator (cfg : LayeredConfiguration) (m : String)
    (pa : List String) (v : Option Value) :
    (cfg.setInLayer m pa v).pathSeparator = cfg.pathSeparator := by
  unfold LayeredConfiguration.setInLayer
  cases cfg.getLayer (normalizeLayerName m) with
  | some layer => rfl
  | none => exact addLayerAt_pathSeparator cfg (normalizeLayerName m) none 0

theorem addLayerAt_zero_layerNames (cfg : LayeredConfiguration) (n : String)
    (d : Option (List (String × Value))) :
    ((cfg.addLayerAt n d 0).1).layerNames =
      normalizeLayerName n :: (cfg.layerNames.erase (normalizeLayerName n)) := by
  show spliceInsert ((cfg.removeLayer [normalizeLayerName n]).layerNames) 0
    (normalizeLayerName n) = _
  rw [spliceInsert_zero]
  show normalizeLayerName n ::
    (cfg.removeSingleLayer (normalizeLayerName n)).layerNames = _
  show normalizeLayerName n ::
    cfg.layerNames.erase (normalizeLayerName (normalizeLayerName n)) = _
  rw [normalizeLayerName_idem]

theorem setInLayer_layerNames (cfg : LayeredConfiguration) (m : String)
    (pa : List String) (v : Option Value) :
    (cfg.setInLayer m pa v).layerNames = cfg.layerNames ∨
    (cfg.setInLayer m pa v).layerNames =
      normalizeLayerName m :: (cfg.layerNames.erase (normalizeLayerName m)) := by
  unfold LayeredConfiguration.setInLayer
  cases cfg.getLayer (normalizeLayerName m) with
  | some layer => left; rfl
  | none =>
    right
    show ((cfg.addLayer (normalizeLayerName m) none).1).layerNames =
      normalizeLayerName m :: (cfg.layerNames.erase (normalizeLayerName m))
    rw [show (cfg.addLayer (normalizeLayerName m) none) =
      cfg.addLayerAt (normalizeLayerName m) none 0 from rfl]
    rw [addLayerAt_zero_layerNames, normalizeLayerName_idem]

theorem searchLayers_after_setInLayer (cfg : LayeredConfiguration) (m c : String)
    (rest : List String) (pa : List String) (v : Value)
    (hne : pa ≠ []) (hclean : ∀ s ∈ pa, ¬ jsTrim s = "")
    (hc : normalizeLayerName c = normalizeLayerName m) :
    searchLayers (cfg.setInLayer m pa (some v)) pa false (c :: rest) = some v := by
  obtain ⟨L2, hL2, hNode⟩ : ∃ L2,
      (cfg.setInLayer m pa (some v)).getLayer (normalizeLayerName c) = some L2 ∧
      L2.getConfigurationNode pa = some v := by
    unfold LayeredConfiguration.setInLayer
    cases hG : cfg.getLayer (normalizeLayerName m) with
    | some layer =>
      refine ⟨layer.setConfigurationNode pa (some v), ?_,
        doGet_after_doSet pa hne hclean layer.data v⟩
      unfold LayeredConfiguration.getLayer
      rw [normalizeLayerName_idem, hc]
      exact assocLookup_assocSet_self cfg.layers (normalizeLayerName m)
        (layer.setConfigurationNode pa (some v))
    | none =>
      refine ⟨(cfg.addLayer (normalizeLayerName m) none).2.setConfigurationNode pa (some v),
        ?_, doGet_after_doSet pa hne hclean _ v⟩
      unfold LayeredConfiguration.getLayer
      rw [normalizeLayerName_idem, hc]
      exact assocLookup_assocSet_self (cfg.addLayer (normalizeLayerName m) none).1.layers
        (normalizeLayerName m)
        ((cfg.addLayer (normalizeLayerName m) none).2.setConfigurationNode pa (some v))
  rw [searchLayers_cons_eq]
  unfold qualifyingValueAt
  rw [hL2]
  simp [hNode]

/-- cfgLayerA is a concrete configuration with one empty layer named a,
used by concrete counterexamples and witnesses. -/
def cfgLayerA : LayeredConfiguration := (newConfiguration.addLayer "a" none).1

/-- C2 counterexample: with one layer named a, set with the whitespace-only
layer name succeeds (it is blank, so it targets the top layer), but the
subsequent get restricted to that same whitespace-only name searches a layer
literally called one space, which does not exist, and returns undefined
instead of the stored value. -/
theorem set_then_restricted_get_blank_name_counterexample :
    ((cfgLayerA.set (some (Value.vStr "p")) (some (Value.vNum 1))
      (some (Value.vStr " "))).2 = none) ∧
    ((cfgLayerA.set (some (Value.vStr "p")) (some (Value.vNum 1))
      (some (Value.vStr " "))).1).get "p" false (RestrictArg.str " ") = none ∧
    ¬ (none : Option Value) = some (Value.vNum 1) := by
  refine ⟨rfl, rfl, by simp⟩

/-- C2 amended: for every configuration, every path whose canonical split is
non-empty, every storable value and every layer name that is either the
empty string or not whitespace-only, if set succeeds then get on the same
path restricted to the same layer name returns exactly the stored value.
(The whitespace-only non-empty names are excluded: there set writes to the
top layer while get searches a literal whitespace-named layer.) -/
theorem set_strL_unfold (cfg : LayeredConfiguration) (P L : String) (v : Option Value)
    (hpe : (splitPath cfg.pathSeparator P).isEmpty = false) :
    cfg.set (some (Value.vStr P)) v (some (Value.vStr L)) =
      if jsTrim L = "" then
        (if cfg.layerNames.isEmpty then (cfg, some (ConfigError.jsError "No layers present"))
          else (cfg.setInLayer (cfg.layerNames.headD "") (splitPath cfg.pathSeparator P) v,
            none))
      else (cfg.setInLayer L (splitPath cfg.pathSeparator P) v, none) := by
  simp [LayeredConfiguration.set, jsIsString, hpe]

theorem set_then_get_same_layer_roundtrip (cfg : LayeredConfiguration) (P : String) (v : Value)
    (L : String)
    (hpath : ¬ splitPath cfg.pathSeparator P = [])
    (hname : L = "" ∨ ¬ jsTrim L = "")
    (hok : (cfg.set (some (Value.vStr P)) (some v) (some (Value.vStr L))).2 = none) :
    ((cfg.set (some (Value.vStr P)) (some v) (some (Value.vStr L))).1).get P false
      (RestrictArg.str L) = some v := by
  have hclean : ∀ s ∈ splitPath cfg.pathSeparator P, ¬ jsTrim s = "" := by
    intro s hs
    have h2 := mem_splitPath_clean hs
    rw [h2.1]
    exact h2.2
  have hpe : (splitPath cfg.pathSeparator P).isEmpty = false := by
    cases hsp : splitPath cfg.pathSeparator P with
    | nil => exact absurd hsp hpath
    | cons a t => rfl
  by_cases htr : jsTrim L = ""
  · have hL : L = "" := by
      rcases hname with h | h
      · exact h
      · exact absurd htr h
    subst hL
    rw [set_strL_unfold cfg P "" (some v) hpe] at hok ⊢
    rw [if_pos (show jsTrim "" = "" from rfl)] at hok ⊢
    cases hLN : cfg.layerNames with
    | nil =>
      rw [hLN] at hok
      simp at hok
    | cons m0 tail =>
      show (cfg.setInLayer ((m0 :: tail).headD "") (splitPath cfg.pathSeparator P)
        (some v)).get P false (RestrictArg.str "") = some v
      have hps := setInLayer_pathSeparator cfg m0 (splitPath cfg.pathSeparator P) (some v)
      show searchLayers (cfg.setInLayer m0 (splitPath cfg.pathSeparator P) (some v))
        (splitPath (cfg.setInLayer m0 (splitPath cfg.pathSeparator P)
          (some v)).pathSeparator P)
        false
        ((cfg.setInLayer m0 (splitPath cfg.pathSeparator P) (some v)).layerNames) = some v
      rw [hps]
      rcases setInLayer_layerNames cfg m0 (splitPath cfg.pathSeparator P) (some v) with
        hln | hln
      · rw [hln, hLN]
        exact searchLayers_after_setInLayer cfg m0 m0 tail _ v hpath hclean rfl
      · rw [hln]
        exact searchLayers_after_setInLayer cfg m0 (normalizeLayerName m0) _ _ v hpath hclean
          (normalizeLayerName_idem m0)
  · rw [set_strL_unfold cfg P L (some v) hpe, if_neg htr]
    have hLne : ¬ L = "" := by
      intro h
      rw [h] at htr
      exact htr rfl
    show (cfg.setInLayer L (splitPath cfg.pathSeparator P) (some v)).get P false
      (RestrictArg.str L) = some v
    have hps := setInLayer_pathSeparator cfg L (splitPath cfg.pathSeparator P) (some v)
    show searchLayers (cfg.setInLayer L (splitPath cfg.pathSeparator P) (some v))
      (splitPath (cfg.setInLayer L (splitPath cfg.pathSeparator P) (some v)).pathSeparator P)
      false
      (candidateLayerNames (cfg.setInLayer L (splitPath cfg.pathSeparator P) (some v))
        (RestrictArg.str L)) = some v
    rw [hps, show candidateLayerNames (cfg.setInLayer L (splitPath cfg.pathSeparator P)
      (some v)) (RestrictArg.str L) = [L] from by simp [candidateLayerNames, hLne]]
    exact searchLayers_after_setInLayer cfg L L [] _ v hpath hclean rfl

theorem set_then_get_same_layer_roundtrip_witness :
    ((cfgLayerA.set (some (Value.vStr "p")) (some (Value.vNum 2))
      (some (Value.vStr "b"))).1).get "p" false (RestrictArg.str "b") = some (Value.vNum 2) :=
  set_then_get_same_layer_roundtrip cfgLayerA "p" (Value.vNum 2) "b" (by decide)
    (Or.inr (by decide)) rfl

/-!
Empty canonical paths, path noise invariance, and relative layer insertion.
-/

/-- C3 counterexample: on a configuration holding one layer, get with the
empty path does not return undefined: the empty canonical path makes the
traversal return the whole data object of the first layer, and has returns
true. -/
theorem empty_path_get_counterexample :
    cfgLayerA.get "" false RestrictArg.undef = some (Value.vObj []) ∧
    cfgLayerA.has "" false RestrictArg.undef = true ∧
    splitPath cfgLayerA.pathSeparator "" = [] := by
  exact ⟨rfl, rfl, rfl⟩

/-- C3 amended: for a path whose canonical split form is empty, the
traversal of each candidate layer returns that whole layer data object,
which always qualifies, so get returns the entire data object of the first
candidate layer that exists (and has returns true then); get returns
undefined, and has false, exactly when no candidate layer exists. -/
theorem empty_path_get_returns_first_layer_data (cfg : LayeredConfiguration) (path : String)
    (ignoreNulls : Bool) (r : RestrictArg)
    (h : splitPath cfg.pathSeparator path = []) :
    cfg.get path ignoreNulls r =
      (candidateLayerNames cfg r).findSome?
        (fun n => (cfg.getLayer n).map (fun layer => Value.vObj layer.data)) ∧
    cfg.has path ignoreNulls r =
      ((candidateLayerNames cfg r).findSome?
        (fun n => (cfg.getLayer n).map (fun layer => Value.vObj layer.data))).isSome := by
  have hmain : cfg.get path ignoreNulls r =
      (candidateLayerNames cfg r).findSome?
        (fun n => (cfg.getLayer n).map (fun layer => Value.vObj layer.data)) := by
    show searchLayers cfg (splitPath cfg.pathSeparator path) ignoreNulls
      (candidateLayerNames cfg r) = _
    rw [h, searchLayers_eq_findSome]
    have hf : qualifyingValueAt cfg [] ignoreNulls =
        fun n => (cfg.getLayer n).map (fun layer => Value.vObj layer.data) := by
      funext n
      unfold qualifyingValueAt
      rw [getLayer_normalize]
      cases cfg.getLayer n with
      | none => rfl
      | some layer => cases ignoreNulls <;> rfl
    rw [hf]
  refine ⟨hmain, ?_⟩
  show (cfg.get path ignoreNulls r).isSome = _
  rw [hmain]

theorem empty_path_get_returns_first_layer_data_witness :
    cfgLayerA.get "...  . " false RestrictArg.undef =
      (candidateLayerNames cfgLayerA RestrictArg.undef).findSome?
        (fun n => (cfgLayerA.getLayer n).map (fun layer => Value.vObj layer.data)) :=
  (empty_path_get_returns_first_layer_data cfgLayerA "...  . " false RestrictArg.undef
    (by decide)).1

/-- C8: path splitting drops every element that is empty after trimming and
trims each survivor, get depends on the path only through its canonical
split, and the noisy path `..a. .b..` with separator dot behaves exactly
like the clean path `a.b`. -/
theorem split_path_noise_invariance :
    (∀ sep p e, e ∈ splitPath sep p → jsTrim e = e ∧ ¬ e = "") ∧
    (∀ (cfg : LayeredConfiguration) (p q : String) (ig : Bool) (r : RestrictArg),
      splitPath cfg.pathSeparator p = splitPath cfg.pathSeparator q →
      cfg.get p ig r = cfg.get q ig r) ∧
    (∀ (cfg : LayeredConfiguration) (ig : Bool) (r : RestrictArg),
      cfg.pathSeparator = "." → cfg.get "..a. .b.." ig r = cfg.get "a.b" ig r) := by
  have hfactor : ∀ (cfg : LayeredConfiguration) (p q : String) (ig : Bool) (r : RestrictArg),
      splitPath cfg.pathSeparator p = splitPath cfg.pathSeparator q →
      cfg.get p ig r = cfg.get q ig r := by
    intro cfg p q ig r h
    show searchLayers cfg (splitPath cfg.pathSeparator p) ig (candidateLayerNames cfg r) =
      searchLayers cfg (splitPath cfg.pathSeparator q) ig (candidateLayerNames cfg r)
    rw [h]
  refine ⟨?_, hfactor, ?_⟩
  · intro sep p e he
    exact mem_splitPath_clean he
  · intro cfg ig r hsep
    apply hfactor
    rw [hsep]
    decide

theorem split_path_noise_invariance_witness :
    cfgLayerA.get "..a. .b.." false RestrictArg.undef =
      cfgLayerA.get "a.b" false RestrictArg.undef :=
  split_path_noise_invariance.2.2 cfgLayerA false RestrictArg.undef rfl

/-- cfgDotName is a configuration holding the layer a and then a layer
added under the raw name x.y, stored under its normalized name x_y. -/
def cfgDotName : LayeredConfiguration :=
  ((newConfiguration.addLayer "a" none).1.addLayer "x.y" none).1

/-- C9 counterexample: after addLayer with the name x.y (stored normalized
as x_y), addLayerAfter referring to x.y does not insert at the position of
that layer plus one (which would give the order x_y, m, a): the otherName
argument is not normalized before the lookup, the raw name x.y is not found
in the stored order, and the new layer is appended at the end instead. -/
theorem add_layer_after_unnormalized_other_counterexample :
    cfgDotName.layerNames = ["x_y", "a"] ∧
    (cfgDotName.addLayerAfter "m" none "x.y").1.layerNames = ["x_y", "a", "m"] ∧
    ¬ (["x_y", "a", "m"] = ["x_y", "m", "a"]) := by
  exact ⟨rfl, rfl, by decide⟩

/-- C9 amended: every layer-name parameter except the otherName argument of
addLayerBefore and addLayerAfter is normalized before lookup; otherName is
compared exactly as supplied against the stored (already normalized) order.
When otherName is absent from the order - in particular whenever it
contains one of the characters dot, slash, backslash, colon while all
stored names are normalized - addLayerBefore inserts the new layer at
index 0 and addLayerAfter appends it at the end; when otherName is present,
they insert at its index, respectively its index plus one. -/
theorem add_layer_relative_unnormalized_other (cfg : LayeredConfiguration) (name : String)
    (data : Option (List (String × Value))) (other : String) :
    (¬ other ∈ cfg.layerNames →
      cfg.addLayerBefore name data other = cfg.addLayerAt name data 0 ∧
      cfg.addLayerAfter name data other =
        cfg.addLayerAt name data ((cfg.layerNames.length : Int) + 1)) ∧
    (other ∈ cfg.layerNames →
      cfg.addLayerBefore name data other =
        cfg.addLayerAt name data (indexOfInt cfg.layerNames other) ∧
      cfg.addLayerAfter name data other =
        cfg.addLayerAt name data (indexOfInt cfg.layerNames other + 1)) ∧
    (¬ normalizeLayerName other = other →
      (∀ x ∈ cfg.layerNames, normalizeLayerName x = x) →
      ¬ other ∈ cfg.layerNames) := by
  refine ⟨?_, ?_, ?_⟩
  · intro habs
    have hidx : indexOfInt cfg.layerNames other = -1 := by
      unfold indexOfInt
      rw [if_neg habs]
    constructor
    · unfold LayeredConfiguration.addLayerBefore LayeredConfiguration.addLayerRelativeTo
      rw [hidx]
      simp
    · unfold LayeredConfiguration.addLayerAfter LayeredConfiguration.addLayerRelativeTo
      rw [hidx]
      simp
  · intro hmem
    have Hnn : ¬ indexOfInt cfg.layerNames other = -1 := by
      unfold indexOfInt
      rw [if_pos hmem]
      omega
    constructor
    · unfold LayeredConfiguration.addLayerBefore LayeredConfiguration.addLayerRelativeTo
      simp [Hnn]
    · unfold LayeredConfiguration.addLayerAfter LayeredConfiguration.addLayerRelativeTo
      simp [Hnn]
  · intro hnorm hall hmem
    exact hnorm (hall other hmem)

theorem add_layer_relative_unnormalized_other_witness :
    (cfgDotName.addLayerAfter "m" none "x.y") =
      cfgDotName.addLayerAt "m" none ((cfgDotName.layerNames.length : Int) + 1) :=
  ((add_layer_relative_unnormalized_other cfgDotName "m" none "x.y").1 (by decide)).2

theorem get_restricted_search_order_and_skip_witness :
    cfgLayerA.get "a" false (RestrictArg.list ("foo" :: ["a"])) =
      cfgLayerA.get "a" false (RestrictArg.list ["a"]) := by
  have h := (get_restricted_search_order_and_skip cfgLayerA "a" false).2.2.2
    [] ["a"] "foo" rfl
  simpa using h

/-!
Error characterization of set.
-/

/-- C5: set throws exactly in the four documented cases - a type error for
a provided non-string layerName, a type error for a non-string path, a
plain error for an empty canonical path, and a plain error for a blank or
omitted layerName on a configuration without layers - and always returns
the configuration unchanged when it throws. -/
theorem set_error_conditions (cfg : LayeredConfiguration) (p v ln : Option Value) :
    (((cfg.set p v ln).2).isSome = true ↔
      ((ln.isSome = true ∧ jsIsString ln = false) ∨
       jsIsString p = false ∨
       (∃ s, p = some (Value.vStr s) ∧ splitPath cfg.pathSeparator s = []) ∨
       ((ln = none ∨ ∃ s, ln = some (Value.vStr s) ∧ jsTrim s = "") ∧
         cfg.layerNames = []))) ∧
    (∀ m, (cfg.set p v ln).2 = some (ConfigError.typeError m) →
      (ln.isSome = true ∧ jsIsString ln = false) ∨ jsIsString p = false) ∧
    (∀ m, (cfg.set p v ln).2 = some (ConfigError.jsError m) →
      (∃ s, p = some (Value.vStr s) ∧ splitPath cfg.pathSeparator s = []) ∨
      ((ln = none ∨ ∃ s, ln = some (Value.vStr s) ∧ jsTrim s = "") ∧
        cfg.layerNames = [])) ∧
    (((cfg.set p v ln).2).isSome = true → (cfg.set p v ln).1 = cfg) := by
  have hmainCase : ∀ (ps : String) (ln2 : Option Value),
      (ln2 = none ∨ ∃ s, ln2 = some (Value.vStr s)) →
      (((cfg.set (some (Value.vStr ps)) v ln2).2).isSome = true ↔
        ((ln2.isSome = true ∧ jsIsString ln2 = false) ∨
         jsIsString (some (Value.vStr ps)) = false ∨
         (∃ s, some (Value.vStr ps) = some (Value.vStr s) ∧
           splitPath cfg.pathSeparator s = []) ∨
         ((ln2 = none ∨ ∃ s, ln2 = some (Value.vStr s) ∧ jsTrim s = "") ∧
           cfg.layerNames = []))) ∧
      (∀ m, (cfg.set (some (Value.vStr ps)) v ln2).2 = some (ConfigError.typeError m) →
        (ln2.isSome = true ∧ jsIsString ln2 = false) ∨
          jsIsString (some (Value.vStr ps)) = false) ∧
      (∀ m, (cfg.set (some (Value.vStr ps)) v ln2).2 = some (ConfigError.jsError m) →
        (∃ s, some (Value.vStr ps) = some (Value.vStr s) ∧
          splitPath cfg.pathSeparator s = []) ∨
        ((ln2 = none ∨ ∃ s, ln2 = some (Value.vStr s) ∧ jsTrim s = "") ∧
          cfg.layerNames = [])) ∧
      (((cfg.set (some (Value.vStr ps)) v ln2).2).isSome = true →
        (cfg.set (some (Value.vStr ps)) v ln2).1 = cfg) := by
    intro ps ln2 hshape
    by_cases hsp : splitPath cfg.pathSeparator ps = []
    · have hset : cfg.set (some (Value.vStr ps)) v ln2 =
          (cfg, some (ConfigError.jsError "Illegal configuration path")) := by
        rcases hshape with rfl | ⟨s, rfl⟩
        · simp [LayeredConfiguration.set, jsIsString, hsp]
        · simp [LayeredConfiguration.set, jsIsString, hsp]
      rw [hset]
      refine ⟨⟨fun _ => Or.inr (Or.inr (Or.inl ⟨ps, rfl, hsp⟩)), fun _ => by simp⟩, ?_, ?_,
        fun _ => rfl⟩
      · intro m hm
        simp at hm
      · intro m hm
        exact Or.inl ⟨ps, rfl, hsp⟩
    · have hpe : (splitPath cfg.pathSeparator ps).isEmpty = false := by
        cases h2 : splitPath cfg.pathSeparator ps with
        | nil => exact absurd h2 hsp
        | cons a t => rfl
      have hCfalse : ¬ (∃ s, some (Value.vStr ps) = some (Value.vStr s) ∧
          splitPath cfg.pathSeparator s = []) := by
        rintro ⟨s2, hs2, hsplit2⟩
        simp only [Option.some.injEq, Value.vStr.injEq] at hs2
        subst hs2
        exact hsp hsplit2
      have hblank : ∀ hbl : (ln2 = none ∨
          ∃ s, ln2 = some (Value.vStr s) ∧ jsTrim s = ""),
          cfg.set (some (Value.vStr ps)) v ln2 =
            (if cfg.layerNames.isEmpty then
              (cfg, some (ConfigError.jsError "No layers present"))
            else (cfg.setInLayer (cfg.layerNames.headD "")
              (splitPath cfg.pathSeparator ps) v, none)) := by
        intro hbl
        rcases hbl with rfl | ⟨s, rfl, htr⟩
        · simp [LayeredConfiguration.set, jsIsString, hpe]
        · simp [LayeredConfiguration.set, jsIsString, hpe, htr]
      by_cases hbl : ln2 = none ∨ ∃ s, ln2 = some (Value.vStr s) ∧ jsTrim s = ""
      · rw [hblank hbl]
        by_cases hln : cfg.layerNames = []
        · rw [if_pos (by rw [hln]; rfl)]
          refine ⟨⟨fun _ => Or.inr (Or.inr (Or.inr ⟨hbl, hln⟩)), fun _ => by simp⟩, ?_, ?_,
            fun _ => rfl⟩
          · intro m hm
            simp at hm
          · intro m hm
            exact Or.inr ⟨hbl, hln⟩
        · have hle : cfg.layerNames.isEmpty = false := by
            cases h2 : cfg.layerNames with
            | nil => exact absurd h2 hln
            | cons a t => rfl
          rw [if_neg (by rw [hle]; exact Bool.false_ne_true)]
          refine ⟨?_, ?_, ?_, ?_⟩
          · constructor
            · intro h
              simp at h
            · rintro (⟨h1, h2⟩ | h2 | hC | ⟨_, hln2⟩)
              · rcases hshape with rfl | ⟨s, rfl⟩
                · simp at h1
                · simp [jsIsString] at h2
              · simp [jsIsString] at h2
              · exact absurd hC hCfalse
              · exact absurd hln2 hln
          · intro m hm
            simp at hm
          · intro m hm
            simp at hm
          · intro h
            simp at h
      · have hstr : ∃ s, ln2 = some (Value.vStr s) ∧ ¬ jsTrim s = "" := by
          rcases hshape with rfl | ⟨s, rfl⟩
          · exact absurd (Or.inl rfl) hbl
          · refine ⟨s, rfl, ?_⟩
            intro htr
            exact hbl (Or.inr ⟨s, rfl, htr⟩)
        rcases hstr with ⟨s, rfl, htr⟩
        have hset : cfg.set (some (Value.vStr ps)) v (some (Value.vStr s)) =
            (cfg.setInLayer s (splitPath cfg.pathSeparator ps) v, none) := by
          simp [LayeredConfiguration.set, jsIsString, hpe, htr]
        rw [hset]
        refine ⟨?_, ?_, ?_, ?_⟩
        · constructor
          · intro h
            simp at h
          · rintro (⟨h1, h2⟩ | h2 | hC | ⟨hfirst, hln2⟩)
            · simp [jsIsString] at h2
            · simp [jsIsString] at h2
            · exact absurd hC hCfalse
            · rcases hfirst with h3 | ⟨s2, hs2, htr2⟩
              · simp at h3
              · simp only [Option.some.injEq, Value.vStr.injEq] at hs2
                subst hs2
                exact absurd htr2 htr
        · intro m hm
          simp at hm
        · intro m hm
          simp at hm
        · intro h
          simp at h
  rcases ln with _ | lv
  · rcases p with _ | pv
    · refine ⟨⟨fun _ => Or.inr (Or.inl (by simp [jsIsString])), fun _ => by
        simp [LayeredConfiguration.set, jsIsString]⟩, ?_, ?_, ?_⟩
      · intro m hm
        exact Or.inr (by simp [jsIsString])
      · intro m hm
        simp [LayeredConfiguration.set, jsIsString] at hm
      · intro h
        simp [LayeredConfiguration.set, jsIsString]
    · cases pv
      case vStr ps => exact hmainCase ps none (Or.inl rfl)
      all_goals
        refine ⟨⟨fun _ => Or.inr (Or.inl (by simp [jsIsString])), fun _ => by
          simp [LayeredConfiguration.set, jsIsString]⟩, ?_, ?_, ?_⟩
        · intro m hm
          exact Or.inr (by simp [jsIsString])
        · intro m hm
          simp [LayeredConfiguration.set, jsIsString] at hm
        · intro h
          simp [LayeredConfiguration.set, jsIsString]
  · cases lv
    case vStr ls =>
      rcases p with _ | pv
      · refine ⟨⟨fun _ => Or.inr (Or.inl (by simp [jsIsString])), fun _ => by
          simp [LayeredConfiguration.set, jsIsString]⟩, ?_, ?_, ?_⟩
        · intro m hm
          exact Or.inr (by simp [jsIsString])
        · intro m hm
          simp [LayeredConfiguration.set, jsIsString] at hm
        · intro h
          simp [LayeredConfiguration.set, jsIsString]
      · cases pv
        case vStr ps => exact hmainCase ps (some (Value.vStr ls)) (Or.inr ⟨ls, rfl⟩)
        all_goals
          refine ⟨⟨fun _ => Or.inr (Or.inl (by simp [jsIsString])), fun _ => by
            simp [LayeredConfiguration.set, jsIsString]⟩, ?_, ?_, ?_⟩
          · intro m hm
            exact Or.inr (by simp [jsIsString])
          · intro m hm
            simp [LayeredConfiguration.set, jsIsString] at hm
          · intro h
            simp [LayeredConfiguration.set, jsIsString]
    all_goals
      refine ⟨⟨fun _ => Or.inl ⟨by simp, by simp [jsIsString]⟩, fun _ => by
        simp [LayeredConfiguration.set, jsIsString]⟩, ?_, ?_, ?_⟩
      · intro m hm
        exact Or.inl ⟨by simp, by simp [jsIsString]⟩
      · intro m hm
        simp [LayeredConfiguration.set, jsIsString] at hm
      · intro h
        simp [LayeredConfiguration.set, jsIsString]

theorem set_error_conditions_witness :
    ((newConfiguration.set (some (Value.vStr "...")) none none).2).isSome = true :=
  (set_error_conditions newConfiguration (some (Value.vStr "...")) none none).1.mpr
    (Or.inr (Or.inr (Or.inl ⟨"...", rfl, by decide⟩)))

/-!
The layer-order and layer-mapping consistency invariant.
-/

/-- ConfigInvariant is the structural invariant of a configuration: the
layer order holds no duplicate names, the layers object holds no duplicate
keys, and the two hold exactly the same names. -/
def ConfigInvariant (cfg : LayeredConfiguration) : Prop :=
  cfg.layerNames.Nodup ∧ (assocKeys cfg.layers).Nodup ∧
  (∀ n ∈ cfg.layerNames, n ∈ assocKeys cfg.layers) ∧
  (∀ n ∈ assocKeys cfg.layers, n ∈ cfg.layerNames)

theorem mem_of_assocLookup_some {α : Type} {l : List (String × α)} {k : String} {x : α}
    (h : assocLookup l k = some x) : k ∈ assocKeys l := by
  by_contra hmem
  rw [(assocLookup_eq_none_iff l k).mpr hmem] at h
  cases h

theorem mem_assocKeys_assocSet_self {α : Type} (l : List (String × α)) (k : String) (v : α) :
    k ∈ assocKeys (assocSet l k v) := by
  induction l with
  | nil => exact List.mem_singleton.mpr rfl
  | cons e rest ih =>
    by_cases h : e.1 = k
    · rw [show assocSet (e :: rest) k v = (e.1, v) :: rest from by simp [assocSet, h],
        assocKeys_cons, h]
      exact List.mem_cons_self _ _
    · rw [show assocSet (e :: rest) k v = e :: assocSet rest k v from by simp [assocSet, h],
        assocKeys_cons]
      exact List.mem_cons_of_mem _ ih

theorem assocKeys_map_clear (l : List (String × Layer)) :
    assocKeys (l.map (fun e => (e.1, e.2.clear))) = assocKeys l := by
  induction l with
  | nil => rfl
  | cons e rest ih =>
    rw [List.map_cons, assocKeys_cons, assocKeys_cons, ih]

theorem configInvariant_transport (cfg cfg2 : LayeredConfiguration)
    (hk : assocKeys cfg2.layers = assocKeys cfg.layers)
    (hn : cfg2.layerNames = cfg.layerNames) :
    ConfigInvariant cfg → ConfigInvariant cfg2 := by
  rintro ⟨h1, h2, h3, h4⟩
  refine ⟨hn ▸ h1, hk ▸ h2, ?_, ?_⟩
  · intro n hx
    rw [hk]
    exact h3 n (hn ▸ hx)
  · intro n hx
    rw [hn]
    exact h4 n (hk ▸ hx)

theorem removeSingleLayer_layers (cfg : LayeredConfiguration) (m : String) :
    (cfg.removeSingleLayer m).layers = assocDelete cfg.layers (normalizeLayerName m) := rfl

theorem removeSingleLayer_layerNames (cfg : LayeredConfiguration) (m : String) :
    (cfg.removeSingleLayer m).layerNames = cfg.layerNames.erase (normalizeLayerName m) := rfl

theorem inv_removeSingleLayer (cfg : LayeredConfiguration) (m : String)
    (h : ConfigInvariant cfg) : ConfigInvariant (cfg.removeSingleLayer m) := by
  obtain ⟨h1, h2, h3, h4⟩ := h
  refine ⟨?_, ?_, ?_, ?_⟩
  · rw [removeSingleLayer_layerNames]
    exact h1.erase _
  · rw [removeSingleLayer_layers, assocKeys_assocDelete]
    exact h2.erase _
  · intro n hx
    rw [removeSingleLayer_layerNames] at hx
    rw [removeSingleLayer_layers, assocKeys_assocDelete]
    obtain ⟨hne, hmem⟩ := (List.Nodup.mem_erase_iff h1).mp hx
    exact (List.Nodup.mem_erase_iff h2).mpr ⟨hne, h3 n hmem⟩
  · intro n hx
    rw [removeSingleLayer_layers, assocKeys_assocDelete] at hx
    rw [removeSingleLayer_layerNames]
    obtain ⟨hne, hmem⟩ := (List.Nodup.mem_erase_iff h2).mp hx
    exact (List.Nodup.mem_erase_iff h1).mpr ⟨hne, h4 n hmem⟩

theorem inv_removeLayer (cfg : LayeredConfiguration) (names : List String)
    (h : ConfigInvariant cfg) : ConfigInvariant (cfg.removeLayer names) := by
  induction names generalizing cfg with
  | nil => exact h
  | cons n rest ih =>
    show ConfigInvariant ((cfg.removeSingleLayer n).removeLayer rest)
    exact ih _ (inv_removeSingleLayer cfg n h)

theorem addLayerAt_fst (cfg : LayeredConfiguration) (name : String)
    (d : Option (List (String × Value))) (idx : Int) :
    (cfg.addLayerAt name d idx).1 = LayeredConfiguration.mk
      (assocSet ((cfg.removeSingleLayer (normalizeLayerName name)).layers)
        (normalizeLayerName name) (Layer.make (normalizeLayerName name) d false))
      (spliceInsert ((cfg.removeSingleLayer (normalizeLayerName name)).layerNames) idx
        (normalizeLayerName name))
      cfg.pathSeparator := rfl

theorem inv_addLayerAt (cfg : LayeredConfiguration) (name : String)
    (d : Option (List (String × Value))) (idx : Int)
    (h : ConfigInvariant cfg) : ConfigInvariant ((cfg.addLayerAt name d idx).1) := by
  obtain ⟨h1, h2, h3, h4⟩ := h
  have hnotName : ¬ normalizeLayerName name ∈
      (cfg.removeSingleLayer (normalizeLayerName name)).layerNames := by
    rw [removeSingleLayer_layerNames, normalizeLayerName_idem]
    intro hmem
    exact ((List.Nodup.mem_erase_iff h1).mp hmem).1 rfl
  have hnotKey : ¬ normalizeLayerName name ∈
      assocKeys (cfg.removeSingleLayer (normalizeLayerName name)).layers := by
    rw [removeSingleLayer_layers, assocKeys_assocDelete, normalizeLayerName_idem]
    intro hmem
    exact ((List.Nodup.mem_erase_iff h2).mp hmem).1 rfl
  obtain ⟨g1, g2, g3, g4⟩ := inv_removeSingleLayer cfg (normalizeLayerName name)
    ⟨h1, h2, h3, h4⟩
  rw [addLayerAt_fst]
  refine ⟨?_, ?_, ?_, ?_⟩
  · exact nodup_spliceInsert idx hnotName g1
  · rw [assocKeys_assocSet_notMem _ hnotKey]
    rw [List.nodup_append]
    refine ⟨g2, List.nodup_singleton _, ?_⟩
    intro x hx hx2
    rw [List.mem_singleton] at hx2
    subst hx2
    exact hnotKey hx
  · intro n hx
    rw [assocKeys_assocSet_notMem _ hnotKey]
    rcases (mem_spliceInsert _ idx _ n).mp hx with rfl | hx2
    · exact List.mem_append.mpr (Or.inr (List.mem_singleton.mpr rfl))
    · exact List.mem_append.mpr (Or.inl (g3 n hx2))
  · intro n hx
    rw [assocKeys_assocSet_notMem _ hnotKey] at hx
    apply (mem_spliceInsert _ idx _ n).mpr
    rcases List.mem_append.mp hx with hx2 | hx2
    · exact Or.inr (g4 n hx2)
    · exact Or.inl (List.mem_singleton.mp hx2)

theorem inv_addLayer (cfg : LayeredConfiguration) (name : String)
    (d : Option (List (String × Value))) (h : ConfigInvariant cfg) :
    ConfigInvariant ((cfg.addLayer name d).1) :=
  inv_addLayerAt cfg name d 0 h

theorem inv_addLayerRelativeTo (cfg : LayeredConfiguration) (name : String)
    (d : Option (List (String × Value))) (other : String) (before : Bool)
    (h : ConfigInvariant cfg) :
    ConfigInvariant ((cfg.addLayerRelativeTo name d other before).1) :=
  inv_addLayerAt cfg name d _ h

theorem inv_setInLayer (cfg : LayeredConfiguration) (m : String) (pa : List String)
    (v : Option Value) (h : ConfigInvariant cfg) : ConfigInvariant (cfg.setInLayer m pa v) := by
  unfold LayeredConfiguration.setInLayer
  cases hG : cfg.getLayer (normalizeLayerName m) with
  | some layer =>
    have hG2 : assocLookup cfg.layers (normalizeLayerName m) = some layer := by
      unfold LayeredConfiguration.getLayer at hG
      rw [normalizeLayerName_idem] at hG
      exact hG
    refine configInvariant_transport cfg _ ?_ rfl h
    exact assocKeys_assocSet_mem _ (mem_of_assocLookup_some hG2)
  | none =>
    have hInv2 := inv_addLayer cfg (normalizeLayerName m) none h
    have hmem : normalizeLayerName m ∈
        assocKeys (cfg.addLayer (normalizeLayerName m) none).1.layers := by
      rw [show (cfg.addLayer (normalizeLayerName m) none).1 =
        (cfg.addLayerAt (normalizeLayerName m) none 0).1 from rfl, addLayerAt_fst]
      rw [normalizeLayerName_idem]
      exact mem_assocKeys_assocSet_self _ _ _
    refine configInvariant_transport (cfg.addLayer (normalizeLayerName m) none).1 _ ?_ rfl hInv2
    exact assocKeys_assocSet_mem _ hmem

theorem set_fst_inv (cfg : LayeredConfiguration) (p v ln : Option Value)
    (h : ConfigInvariant cfg) : ConfigInvariant ((cfg.set p v ln).1) := by
  unfold LayeredConfiguration.set
  by_cases h1 : (ln.isSome && !jsIsString ln) = true
  · rw [if_pos h1]
    exact h
  · rw [if_neg h1]
    rcases p with _ | pv
    · exact h
    · have hother : ∀ w : Option Value,
          ConfigInvariant ((if cfg.layerNames.isEmpty then
            (cfg, some (ConfigError.jsError "No layers present"))
          else (cfg.setInLayer (cfg.layerNames.headD "")
            (splitPath cfg.pathSeparator "") w, none)).1) → True := fun _ _ => trivial
      clear hother
      have hblankStep : ∀ (ps : String),
          ConfigInvariant ((if cfg.layerNames.isEmpty then
            (cfg, some (ConfigError.jsError "No layers present"))
          else (cfg.setInLayer (cfg.layerNames.headD "")
            (splitPath cfg.pathSeparator ps) v, none)).1) := by
        intro ps
        by_cases hln : cfg.layerNames.isEmpty = true
        · rw [if_pos hln]
          exact h
        · rw [if_neg hln]
          exact inv_setInLayer cfg _ _ v h
      cases pv with
      | vStr ps =>
        dsimp only
        by_cases hsp : (splitPath cfg.pathSeparator ps).isEmpty = true
        · rw [if_pos hsp]
          exact h
        · rw [if_neg hsp]
          rcases ln with _ | lv
          · exact hblankStep ps
          · cases lv with
            | vStr ls =>
              dsimp only
              by_cases htr : jsTrim ls = ""
              · rw [if_pos htr]
                exact hblankStep ps
              · rw [if_neg htr]
                exact inv_setInLayer cfg _ _ v h
            | vNull => exact hblankStep ps
            | vBool b => exact hblankStep ps
            | vNum n => exact hblankStep ps
            | vObj f => exact hblankStep ps
            | vArr a => exact hblankStep ps
      | vNull => exact h
      | vBool b => exact h
      | vNum n => exact h
      | vObj f => exact h
      | vArr a => exact h

theorem inv_clearLayer (cfg : LayeredConfiguration) (names : List String)
    (h : ConfigInvariant cfg) : ConfigInvariant (cfg.clearLayer names) := by
  induction names generalizing cfg with
  | nil => exact h
  | cons n rest ih =>
    show ConfigInvariant (List.foldl _ (match cfg.getLayer n with
      | some layer => { cfg with
          layers := assocSet cfg.layers (normalizeLayerName n) layer.clear }
      | none => cfg) rest)
    cases hG : cfg.getLayer n with
    | none => exact ih cfg h
    | some layer =>
      apply ih
      have hG2 : assocLookup cfg.layers (normalizeLayerName n) = some layer := hG
      refine configInvariant_transport cfg _ ?_ rfl h
      exact assocKeys_assocSet_mem _ (mem_of_assocLookup_some hG2)

theorem inv_clearAllLayers (cfg : LayeredConfiguration) (h : ConfigInvariant cfg) :
    ConfigInvariant cfg.clearAllLayers := by
  refine configInvariant_transport cfg _ ?_ rfl h
  exact assocKeys_map_clear cfg.layers

theorem inv_loadFromFile (cfg : LayeredConfiguration)
    (decode : String → Except Unit (Option Value)) (fp : String) (ln : Option String)
    (h : ConfigInvariant cfg) : ConfigInvariant ((cfg.loadFromFile decode fp ln).1) := by
  unfold LayeredConfiguration.loadFromFile
  cases decode fp with
  | error e => exact h
  | ok jsonData =>
    rcases jsonData with _ | jv
    · exact h
    · cases jv
      case vObj fields => exact inv_addLayer cfg _ (some fields) h
      all_goals exact h

theorem inv_loadFilesSeq (decode : String → Except Unit (Option Value)) (dir : String)
    (files : List String) : ∀ (cfg : LayeredConfiguration), ConfigInvariant cfg →
    ConfigInvariant ((loadFilesSeq decode dir files cfg).1) := by
  induction files with
  | nil => intro cfg h; exact h
  | cons f rest ih =>
    intro cfg h
    show ConfigInvariant ((match cfg.loadFromFile decode (joinPath dir f) none with
      | (cfg2, none) => loadFilesSeq decode dir rest cfg2
      | (cfg2, some e) => (cfg2, some e)).1)
    have h2 := inv_loadFromFile cfg decode (joinPath dir f) none h
    cases hres : cfg.loadFromFile decode (joinPath dir f) none with
    | mk cfg2 er =>
      rw [hres] at h2
      cases er with
      | none => exact ih cfg2 h2
      | some e => exact h2

theorem inv_loadFromDirectory (cfg : LayeredConfiguration)
    (decode : String → Except Unit (Option Value)) (dir : String)
    (listing : Except Unit (List String)) (h : ConfigInvariant cfg) :
    ConfigInvariant ((cfg.loadFromDirectory decode dir listing).1) := by
  unfold LayeredConfiguration.loadFromDirectory
  cases listing with
  | error e => exact h
  | ok files =>
    dsimp only
    split
    · rename_i cfg2 heq
      rw [← heq]
      exact inv_loadFilesSeq decode dir _ cfg h
    · rename_i cfg2 e heq
      exact h

theorem inv_applyConfigOp (cfg : LayeredConfiguration) (op : ConfigOp)
    (h : ConfigInvariant cfg) : ConfigInvariant (applyConfigOp cfg op) := by
  cases op with
  | opAddLayer n d => exact inv_addLayer cfg n d h
  | opAddLayerAt n d i => exact inv_addLayerAt cfg n d i h
  | opAddLayerBefore n d o => exact inv_addLayerRelativeTo cfg n d o true h
  | opAddLayerAfter n d o => exact inv_addLayerRelativeTo cfg n d o false h
  | opRemoveLayer ns => exact inv_removeLayer cfg ns h
  | opRemoveAllLayers =>
    exact ⟨List.nodup_nil, List.nodup_nil, fun n hn => absurd hn (List.not_mem_nil n),
      fun n hn => absurd hn (List.not_mem_nil n)⟩
  | opClearLayer ns => exact inv_clearLayer cfg ns h
  | opClearAllLayers => exact inv_clearAllLayers cfg h
  | opSet p v ln => exact set_fst_inv cfg p v ln h
  | opLoadFromEnv env ln => exact inv_addLayer cfg _ (some env) h
  | opLoadFromDirectory dec dir listing => exact inv_loadFromDirectory cfg dec dir listing h

/-- C6: every sequence of public operations preserves the configuration
invariant: the layer order has no duplicates and its set of names is
exactly the key set of the layers mapping. -/
theorem config_invariant_preserved (cfg : LayeredConfiguration) (ops : List ConfigOp)
    (h : ConfigInvariant cfg) : ConfigInvariant (ops.foldl applyConfigOp cfg) := by
  induction ops generalizing cfg with
  | nil => exact h
  | cons op rest ih => exact ih _ (inv_applyConfigOp cfg op h)

theorem config_invariant_preserved_witness :
    ConfigInvariant ([ConfigOp.opAddLayer "x.y" none,
      ConfigOp.opSet (some (Value.vStr "a.b")) (some (Value.vNum 1)) none,
      ConfigOp.opRemoveLayer ["zzz"]].foldl applyConfigOp newConfiguration) :=
  config_invariant_preserved newConfiguration
    [ConfigOp.opAddLayer "x.y" none,
      ConfigOp.opSet (some (Value.vStr "a.b")) (some (Value.vNum 1)) none,
      ConfigOp.opRemoveLayer ["zzz"]]
    ⟨List.nodup_nil, List.nodup_nil, fun n hn => absurd hn (List.not_mem_nil n),
      fun n hn => absurd hn (List.not_mem_nil n)⟩

/-- C7: when a directory load fails on a listing error or on any single
file, the layers mapping and the layer order of the returned configuration
are exactly the ones snapshotted when loadFromDirectory was entered - no
partial application of earlier files is observable. -/
theorem load_from_directory_rollback (cfg : LayeredConfiguration)
    (decode : String → Except Unit (Option Value)) (dir : String)
    (listing : Except Unit (List String))
    (h : ((cfg.loadFromDirectory decode dir listing).2).isSome = true) :
    ((cfg.loadFromDirectory decode dir listing).1).layers = cfg.layers ∧
    ((cfg.loadFromDirectory decode dir listing).1).layerNames = cfg.layerNames := by
  unfold LayeredConfiguration.loadFromDirectory at h ⊢
  cases listing with
  | error e => exact ⟨rfl, rfl⟩
  | ok files =>
    dsimp only at h ⊢
    split at h
    · rename_i cfg2 heq
      simp at h
    · rename_i cfg2 e heq
      exact ⟨rfl, rfl⟩

theorem load_from_directory_rollback_witness :
    ((cfgLayerA.loadFromDirectory (fun _ => Except.error ()) "conf"
      (Except.ok ["b.json"])).1).layers = cfgLayerA.layers ∧
    ((cfgLayerA.loadFromDirectory (fun _ => Except.error ()) "conf"
      (Except.ok ["b.json"])).1).layerNames = cfgLayerA.layerNames :=
  load_from_directory_rollback cfgLayerA (fun _ => Except.error ()) "conf"
    (Except.ok ["b.json"]) (by rfl)
